import Mathlib

/-!
Verification of the maubot/sed plugin core (src/sed.go).

The development shallowly embeds the Go source:
* message bodies are `List Char`;
* the passive-command regular expressions registered in `Start` are embedded
  as terms of a small regex type `Rx` with an executable Brzozowski-derivative
  matcher (greediness does not change the matched language, which is all that
  the boolean-match claims need);
* the Go standard library `regexp` engine consumed by the plugin is modelled
  abstractly by `GoRx` (a leftmost-match finder plus a replacement renderer),
  and `regexp.Regexp.replaceAll`'s loop (match scan, empty-match suppression,
  position advance) is translated faithfully as `replaceLoopF`;
* the stateful orchestrator (`MessageHandler` and the history maps) is
  translated into pure state-passing code that also emits a trace of
  observable actions (lock operations, fetches, replies).
-/

set_option maxRecDepth 10000

/-- Regular expressions over `Char` with character classes given by a boolean
predicate, enough to express the two `Matches` patterns registered in
`Start` (src/sed.go lines 59-72). `star` is language-level: greediness of
`.*?` does not affect which strings match. -/
inductive Rx : Type where
  | void : Rx
  | eps : Rx
  | cls : (Char → Bool) → Rx
  | alt : Rx → Rx → Rx
  | cat : Rx → Rx → Rx
  | star : Rx → Rx

namespace Rx

/-- Does the expression match the empty string? -/
def nullable : Rx → Bool
  | .void => false
  | .eps => true
  | .cls _ => false
  | .alt P Q => P.nullable || Q.nullable
  | .cat P Q => P.nullable && Q.nullable
  | .star _ => true

/-- Brzozowski derivative with respect to one character. -/
def deriv : Rx → Char → Rx
  | .void, _ => .void
  | .eps, _ => .void
  | .cls p, a => if p a then .eps else .void
  | .alt P Q, a => .alt (P.deriv a) (Q.deriv a)
  | .cat P Q, a =>
      if P.nullable then .alt (.cat (P.deriv a) Q) (Q.deriv a)
      else .cat (P.deriv a) Q
  | .star P, a => .cat (P.deriv a) (.star P)

/-- Executable anchored matcher: does the expression match the whole string? -/
def rmatch : Rx → List Char → Bool
  | P, [] => P.nullable
  | P, a :: as => (P.deriv a).rmatch as

end Rx

/-- Character class `[#/]`: the delimiter class of the short-form pattern. -/
def delimCls : Rx := .cls (fun c => c == '#' || c == '/')

/-- Character class `.` of Go regexp: any character except newline. -/
def dotCls : Rx := .cls (fun c => !(c == '\n'))

/-- Character class `[^\\]`: any character except a backslash (negated Go
classes do match newline). -/
def notBackslashCls : Rx := .cls (fun c => !(c == '\\'))

/-- Character class `[gi]`. -/
def giCls : Rx := .cls (fun c => c == 'g' || c == 'i')

/-- The capture segment `(.*?[^\\]?)` used for both pattern and replacement. -/
def segRx : Rx := .cat (.star dotCls) (.alt notBackslashCls .eps)

/-- The optional tail `(?:[#/]([gi]+)?)?` of the short-form pattern. -/
def shortTailRx : Rx :=
  .alt (.cat delimCls (.alt (.cat giCls (.star giCls)) .eps)) .eps

/-- Embedding of the short-form passive-command pattern registered in `Start`
(src/sed.go line 63): `^s([#/])(.*?[^\\]?)[#/](.*?[^\\]?)(?:[#/]([gi]+)?)?$`.
The pattern is anchored at both ends, so a message body matches the passive
command exactly when `shortRx.rmatch body` holds. -/
def shortRx : Rx :=
  .cat (.cls (fun c => c == 's'))
    (.cat delimCls (.cat segRx (.cat delimCls (.cat segRx shortTailRx))))

/-- Abstract model of a compiled Go `regexp.Regexp` as consumed by the plugin:
`find s p` is `doExecute` – the leftmost match span (start, end) of the regexp
in `s` beginning the search at position `p` – and `render tmpl s span` is the
expansion of the replacement template `tmpl` for the match at `span` in `s`
(capture-group references resolved against that match). -/
structure GoRx : Type where
  find : List Char → Nat → Option (Nat × Nat)
  render : List Char → List Char → Nat × Nat → List Char

/-- Position advance of Go's `regexp.replaceAll` loop: always advance at
least one character (rune width is 1 in this `List Char` model, 0 at the end
of the string). -/
def advanceLoopPos (searchPos j n : Nat) : Nat :=
  if searchPos + (if searchPos < n then 1 else 0) > j then
    searchPos + (if searchPos < n then 1 else 0)
  else if searchPos + 1 > j then searchPos + 1
  else j

/-- Fuel-indexed translation of the loop body of Go `regexp.replaceAll`
(regexp/regexp.go), as used by both `ReplaceAllString` and
`ReplaceAllStringFunc`: find the next match from `searchPos`, copy the
unmatched text since `lastMatchEnd`, call the replacement function `f` on the
match span unless it is an empty match immediately after another match
(`a[1] > lastMatchEnd || a[0] == 0` in the Go source), then advance.  `f`
threads the state `st` of the replacement closure.  The fuel only bounds the
iteration count; since every iteration strictly advances `searchPos`, fuel
`src.length + 1` (supplied by the wrappers below) is never exhausted.  A
match span outside `searchPos ≤ i ≤ j ≤ src.length` cannot be produced by
`doExecute`; the model stops scanning in that impossible case. -/
def replaceLoopF {σ : Type} (r : GoRx) (src : List Char)
    (f : σ → Nat × Nat → σ × List Char) :
    Nat → σ → Nat → Nat → List Char
  | 0, _, lastMatchEnd, _ => src.drop lastMatchEnd
  | fuel + 1, st, lastMatchEnd, searchPos =>
    if searchPos ≤ src.length then
      match r.find src searchPos with
      | none => src.drop lastMatchEnd
      | some (i, j) =>
        if searchPos ≤ i ∧ i ≤ j ∧ j ≤ src.length then
          if j > lastMatchEnd ∨ i = 0 then
            (src.drop lastMatchEnd).take (i - lastMatchEnd) ++ (f st (i, j)).2 ++
              replaceLoopF r src f fuel (f st (i, j)).1 j
                (advanceLoopPos searchPos j src.length)
          else
            (src.drop lastMatchEnd).take (i - lastMatchEnd) ++
              replaceLoopF r src f fuel st j (advanceLoopPos searchPos j src.length)
        else src.drop lastMatchEnd
    else src.drop lastMatchEnd

/-- Model of `Find.ReplaceAllString(src, tmpl)`: the replace-all loop with the
template renderer as replacement function. -/
def goReplaceAll (r : GoRx) (src tmpl : List Char) : List Char :=
  replaceLoopF r src (fun u ij => (u, r.render tmpl src ij)) (src.length + 1) () 0 0

/-- The rows of pre-extracted capture groups supplied by the host for a
matched passive command (`gomatrix.MatchedPassiveCommand`). -/
structure MatchedPassiveCommand : Type where
  Captured : List (List (List Char))
deriving DecidableEq

/-- The `evt.Unsigned.PassiveCommand` map, restricted to the two keys the
plugin looks up (`net.maunium.sed.short` and `net.maunium.sed.long`). -/
structure PassiveCommandMap : Type where
  short : Option MatchedPassiveCommand
  long : Option MatchedPassiveCommand
deriving DecidableEq

/-- A Matrix message event as read by the plugin: room, sender and event ids,
body text, the reply-to reference (`evt.Content.GetReplyTo()`, empty when
absent) and the host-side passive-command match. -/
structure Event : Type where
  RoomID : List Char
  Sender : List Char
  ID : List Char
  Body : List Char
  ReplyTo : List Char
  PassiveCommand : Option PassiveCommandMap
deriving DecidableEq

/-- A compiled statement (src/sed.go lines 76-80). -/
structure SedStatement : Type where
  Find : GoRx
  Replace : List Char
  Global : Bool

/-- Model of `SedStatement.Exec` (src/sed.go lines 165-178).  For `Global`, delegate to
`ReplaceAllString`.  Otherwise run `ReplaceAllStringFunc` with the closure
that replaces the first match with `ReplaceAllString(match, Replace)` and
afterwards returns every further match unchanged; the closure state is the
`replacedOne` flag, and the matched text is recovered from the span. -/
def SedStatement.Exec (sed : SedStatement) (body : List Char) : List Char :=
  if sed.Global then goReplaceAll sed.Find body sed.Replace
  else
    replaceLoopF sed.Find body
      (fun replacedOne ij =>
        let m := (body.drop ij.1).take (ij.2 - ij.1)
        if replacedOne then (replacedOne, m)
        else (true, goReplaceAll sed.Find m sed.Replace))
      (body.length + 1) false 0 0

/-- Abstract model of the pieces of the Go `regexp` package the parse path
consumes: `compile` is `regexp.Compile` (an error carries the compiler's
message), and `longFindSubmatch sep body` is `FindStringSubmatch` of the
finder pattern `sed s<sep>(.*?[^\\]?)<sep>(.*?[^\\]?)<sep>([gi]+)?` built by
`findFullStatement` for the separator `sep` (`none` models a nil slice, a row
models `[whole, group1, group2, group3]`). -/
structure RegexpLib : Type where
  compile : List Char → Except (List Char) GoRx
  longFindSubmatch : Char → List Char → Option (List (List Char))

/-- The error prefix used by both compile paths (src/sed.go lines 132, 153). -/
def errPre : List Char := ("failed to compile regex: ").data

/-- The literal `"sed s"` searched for by `findFullStatement`. -/
def sedSToken : List Char := ("sed s").data

/-- Model of Go `strings.Index`: index of the first occurrence of `need` in
`hay`, `none` for Go's `-1`. -/
def strIndex (hay need : List Char) : Option Nat :=
  (List.range (hay.length + 1)).find? (fun i => need.isPrefixOf (hay.drop i))

/-- Model of `findFullStatement` (src/sed.go lines 102-111): look for `"sed s"` in the
lowercased body; if found and at least a separator plus the three minimal
grammar parts fit before the end of the body, return the separator character
(which determines the finder regex the Go code builds and returns). -/
def findFullStatement (body : List Char) : Option Char :=
  match strIndex (body.map Char.toLower) sedSToken with
  | none => none
  | some index =>
    if index + sedSToken.length + 3 > body.length then none
    else some (body.getD (index + sedSToken.length) ' ')

/-- Model of `compilePassiveStatement` (src/sed.go lines 113-142): use the host's
pre-extracted capture groups.  Missing map, missing commands, an empty
capture list or a first row without exactly six entries all yield
"no statement, no error"; a pattern that fails to compile yields the error;
otherwise indices 3, 4, 5 of the first row are pattern, replacement and
flags, with `Global` true iff the flags contain `g`. -/
def compilePassiveStatement (lib : RegexpLib) (evt : Event) :
    Option SedStatement × Option (List Char) :=
  match evt.PassiveCommand with
  | none => (none, none)
  | some pc =>
    match (match pc.short with | some m => some m | none => pc.long) with
    | none => (none, none)
    | some matchedCommand =>
      let captured := matchedCommand.Captured
      if captured.length = 0 ∨ (captured.headD []).length ≠ 6 then (none, none)
      else
        let row := captured.headD []
        match lib.compile (row.getD 3 []) with
        | .error e => (none, some (errPre ++ e))
        | .ok regex =>
          (some { Find := regex, Replace := row.getD 4 [],
                  Global := (row.getD 5 []).contains 'g' }, none)

/-- Model of `compileStatement` (src/sed.go lines 144-163): run the finder regex built
for separator `sep` over the body.  Anything but a four-entry submatch row is
"no statement"; a pattern that fails to compile is an error; otherwise build
the statement from groups 1 (pattern), 2 (replacement) and 3 (flags). -/
def compileStatement (lib : RegexpLib) (sep : Char) (body : List Char) :
    Option SedStatement × Option (List Char) :=
  match lib.longFindSubmatch sep body with
  | none => (none, none)
  | some row =>
    if row.length ≠ 4 then (none, none)
    else
      match lib.compile (row.getD 1 []) with
      | .error e => (none, some (errPre ++ e))
      | .ok regex =>
        (some { Find := regex, Replace := row.getD 2 [],
                Global := (row.getD 3 []).contains 'g' }, none)

/-- The raw-text branch of `ParseEvent` (src/sed.go lines 90-98): derive the
statement from the body alone via `findFullStatement` and `compileStatement`;
when no finder is produced the result is "no statement, no error". -/
def rawParse (lib : RegexpLib) (evt : Event) :
    Option SedStatement × Option (List Char) :=
  match findFullStatement evt.Body with
  | none => (none, none)
  | some sep => compileStatement lib sep evt.Body

/-- Model of `ParseEvent` (src/sed.go lines 82-100): try the host pre-matched passive
path first; pass its error or statement through; otherwise fall back to the
raw-text path. -/
def ParseEvent (lib : RegexpLib) (evt : Event) :
    Option SedStatement × Option (List Char) :=
  match compilePassiveStatement lib evt with
  | (_, some err) => (none, some err)
  | (some sed, none) => (some sed, none)
  | (none, none) => rawParse lib evt

/-- Model of `EventQueue` (src/sed.go lines 44-47): the fixed-size ring of recent
events of one room, with the write cursor `Ptr`. -/
structure EventQueue : Type where
  List : List (Option Event)
  Ptr : Nat
deriving DecidableEq

/-- Model of `NewEventQueue` (src/sed.go lines 37-42): ten empty slots, cursor 0. -/
def NewEventQueue : EventQueue :=
  { List := List.replicate 10 none, Ptr := 0 }

/-- Model of `EventQueue.Add` (src/sed.go lines 49-52): overwrite the slot under the
cursor and advance the cursor cyclically. -/
def EventQueue.Add (q : EventQueue) (evt : Event) : EventQueue :=
  { List := q.List.set q.Ptr (some evt), Ptr := (q.Ptr + 1) % q.List.length }

/-- The slots visited by the scan loop of `TryReplaceRecentEvent`
(src/sed.go lines 232-239) for `i = len(List)` down to `1`, reading slot
`(i + Ptr) % len(List)` and skipping empty slots: this is the candidate
sequence the fallback lookup yields, in visit order. -/
def scanSlots (q : EventQueue) : Nat → List Event
  | 0 => []
  | i + 1 =>
    match q.List.getD ((i + 1 + q.Ptr) % q.List.length) none with
    | some e => e :: scanSlots q i
    | none => scanSlots q i

/-- The full candidate sequence of the fallback scan over a room's ring. -/
def recentScanOrder (q : EventQueue) : List Event := scanSlots q q.List.length

/-- The ring state after recording the events `es` in order into a fresh
queue. -/
def ringAfter (es : List Event) : EventQueue :=
  es.foldl EventQueue.Add NewEventQueue

/-- Lookup in a Go map modelled as an association list. -/
def mapGet {β : Type} (m : List (List Char × β)) (k : List Char) : Option β :=
  (m.find? (fun kv => kv.1 == k)).map (fun kv => kv.2)

/-- Assignment in a Go map modelled as an association list. -/
def mapSet {β : Type} (m : List (List Char × β)) (k : List Char) (v : β) :
    List (List Char × β) :=
  if (m.find? (fun kv => kv.1 == k)).isSome then
    m.map (fun kv => if kv.1 == k then (k, v) else kv)
  else m ++ [(k, v)]

/-- The mutable state of the plugin (src/sed.go lines 29-35): per room, the
map from sender to their latest event id, and the ring of recent events.
The client, logger and the `sync.RWMutex` are not data; lock operations are
recorded in the action traces below. -/
structure Sed : Type where
  prevEventMap : List (List Char × List (List Char × List Char))
  prevEventQueue : List (List Char × EventQueue)

/-- Observable actions of the orchestrator: reader-lock operations of the
history lock, fetches from the external message store (`client.GetEvent`),
read receipts, and replies (`target.Reply(newBody)`). -/
inductive Act : Type where
  | rlock : Act
  | runlock : Act
  | fetch : List Char → List Char → Act
  | markRead : Act
  | reply : Event → List Char → Act
deriving DecidableEq

/-- Model of `RegisterPrevEvent` (src/sed.go lines 180-197): under the writer lock
(taken and released in a balanced way, hence not traced), store the event id
as the sender's latest and append the event to the room's ring, creating the
room's map and queue on first sight. -/
def RegisterPrevEvent (bot : Sed) (evt : Event) : Sed :=
  let roomMap := (mapGet bot.prevEventMap evt.RoomID).getD []
  let roomMap' := mapSet roomMap evt.Sender evt.ID
  let q := (mapGet bot.prevEventQueue evt.RoomID).getD NewEventQueue
  { prevEventMap := mapSet bot.prevEventMap evt.RoomID roomMap',
    prevEventQueue := mapSet bot.prevEventQueue evt.RoomID (q.Add evt) }

/-- Model of `GetPrevEvent` (src/sed.go lines 199-213) with its action trace: take the
read lock; the two missing-entry paths return while still holding it (the Go
code returns before `RUnlock`); the success path releases the lock and then
fetches the full event from the store. -/
def GetPrevEvent (getEvent : List Char → List Char → Option Event) (bot : Sed)
    (roomID userID : List Char) : Option Event × List Act :=
  match mapGet bot.prevEventMap roomID with
  | none => (none, [Act.rlock])
  | some roomMap =>
    match mapGet roomMap userID with
    | none => (none, [Act.rlock])
    | some eventID =>
      (getEvent roomID eventID, [Act.rlock, Act.runlock, Act.fetch roomID eventID])

/-- Model of `TryReplaceEvent` (src/sed.go lines 215-222): run the statement on the
candidate's body; when the body changes, reply with the new body and report
success.  (The unused `evt` parameter of the Go function is dropped.) -/
def TryReplaceEvent (sed : SedStatement) (origEvt : Event) : Bool × List Act :=
  let replaced := sed.Exec origEvt.Body
  if replaced == origEvt.Body then (false, [])
  else (true, [Act.reply origEvt replaced])

/-- Model of `TryReplaceRecentEvent` (src/sed.go lines 224-241) with its action trace:
take the read lock; if the room has no queue, return while still holding it
(the Go code returns before `RUnlock`); otherwise release it and try
`TryReplaceEvent` on each ring candidate in the loop's visit order
(`recentScanOrder`), succeeding on the first whose body changes. -/
def TryReplaceRecentEvent (bot : Sed) (sed : SedStatement) (evt : Event) :
    Bool × List Act :=
  match mapGet bot.prevEventQueue evt.RoomID with
  | none => (false, [Act.rlock])
  | some q =>
    match (recentScanOrder q).find? (fun o => (TryReplaceEvent sed o).1) with
    | some o => (true, Act.rlock :: Act.runlock :: (TryReplaceEvent sed o).2)
    | none => (false, [Act.rlock, Act.runlock])

/-- The result values of a maubot event handler. -/
inductive EventHandlerResult : Type where
  | Continue : EventHandlerResult
  | StopEventPropagation : EventHandlerResult
deriving DecidableEq

/-- Model of `MessageHandler` (src/sed.go lines 243-268): parse; if no statement was
produced return `Continue` (the Go code tests `sed == nil` before
`err != nil`); on a parse error reply with the error text; otherwise resolve
the primary candidate (explicit reply target fetched from the store, else the
sender's latest event), mark the command read, and try the primary candidate
then the recent-ring fallback.  The deferred `RegisterPrevEvent(evt)` runs
after the handler body, giving the final state. -/
def MessageHandler (lib : RegexpLib)
    (getEvent : List Char → List Char → Option Event) (bot : Sed)
    (evt : Event) : EventHandlerResult × List Act × Sed :=
  let bot' := RegisterPrevEvent bot evt
  match ParseEvent lib evt with
  | (none, _) => (.Continue, [], bot')
  | (some _, some err) => (.StopEventPropagation, [Act.reply evt err], bot')
  | (some sed, none) =>
    let fr :=
      if evt.ReplyTo.length > 0 then
        (getEvent evt.RoomID evt.ReplyTo, [Act.fetch evt.RoomID evt.ReplyTo])
      else GetPrevEvent getEvent bot evt.RoomID evt.Sender
    let acts := fr.2 ++ [Act.markRead]
    match fr.1 with
    | some origEvt =>
      let tr := TryReplaceEvent sed origEvt
      if tr.1 then (.StopEventPropagation, acts ++ tr.2, bot')
      else
        let trr := TryReplaceRecentEvent bot sed evt
        if trr.1 then (.StopEventPropagation, acts ++ tr.2 ++ trr.2, bot')
        else (.Continue, acts ++ tr.2 ++ trr.2, bot')
    | none =>
      let trr := TryReplaceRecentEvent bot sed evt
      if trr.1 then (.StopEventPropagation, acts ++ trr.2, bot')
      else (.Continue, acts ++ trr.2, bot')

/-- The language of the capture segment `(.*?[^\\]?)`: a newline-free part
followed by at most one non-backslash character. -/
def SegStr (w : List Char) : Prop :=
  ∃ a b, w = a ++ b ∧ (∀ c ∈ a, ¬ c = '\n') ∧
    (b = [] ∨ ∃ c, b = [c] ∧ ¬ c = '\\')

/-- A flags string drawn from `[gi]*`. -/
def FlagsStr (f : List Char) : Prop := ∀ c ∈ f, c = 'g' ∨ c = 'i'

/-- The short-form grammar as claim C4 states it (the spec's normative line
`^s<D>(pattern)<D>(replacement)<D>([gi]*)$`): `s`, then an arbitrary
delimiter character, pattern, the same delimiter, replacement, the same
delimiter, and a possibly empty flags segment drawn from `[gi]*`. -/
def SpecShortForm (x : List Char) : Prop :=
  ∃ d p r f, x = 's' :: d :: (p ++ d :: (r ++ d :: f)) ∧
    SegStr p ∧ SegStr r ∧ FlagsStr f

/-- What the registered short-form pattern actually accepts: `s`, then a
delimiter drawn from `#`/`/`, pattern, a second (independently chosen) such
delimiter, replacement, and optionally a third such delimiter followed by a
flags segment drawn from `[gi]*`; the whole trailing delimiter-plus-flags
part may be absent. -/
def ShortFormAmended (x : List Char) : Prop :=
  ∃ d1 p d2 r sfx, x = 's' :: d1 :: (p ++ d2 :: (r ++ sfx)) ∧
    (d1 = '#' ∨ d1 = '/') ∧ (d2 = '#' ∨ d2 = '/') ∧ SegStr p ∧ SegStr r ∧
    (sfx = [] ∨ ∃ d3 f, sfx = d3 :: f ∧ (d3 = '#' ∨ d3 = '/') ∧ FlagsStr f)

/-- A trace leaves the history reader lock balanced when it releases it as
often as it acquires it. -/
def locksBalanced (tr : List Act) : Bool :=
  tr.count Act.rlock == tr.count Act.runlock

-- ## Concrete instances used in witnesses and counterexamples

/-- A compiled-regexp value that matches nothing. -/
def noMatchRx : GoRx :=
  { find := fun _ _ => none, render := fun tmpl _ _ => tmpl }

/-- Model of the compiled Go regexp for the literal pattern `a`: the leftmost
occurrence of the character `a` at or after the requested position, with
literal (capture-free) template rendering. -/
def litA : GoRx :=
  { find := fun s p =>
      ((List.range s.length).filter
          (fun i => decide (p ≤ i) && (s.getD i ' ' == 'a'))).head?.map
        (fun i => (i, i + 1)),
    render := fun tmpl _ _ => tmpl }

/-- A regexp-library model whose compiler rejects the pattern source `([`
(with Go's message for it) and accepts everything else. -/
def demoLibBad : RegexpLib :=
  { compile := fun p =>
      if p == ("([").data then .error ("missing closing )").data
      else .ok noMatchRx,
    longFindSubmatch := fun _ _ => none }

/-- A regexp-library model whose compiler maps the pattern source `a` to the
literal matcher `litA` and rejects everything else, and whose
`longFindSubmatch` returns exactly what Go `FindStringSubmatch` yields for
the finder built with separator `/` on the body `sed s/a/b/i`. -/
def demoLibA : RegexpLib :=
  { compile := fun p => if p == ("a").data then .ok litA else .error ("e").data,
    longFindSubmatch := fun sep body =>
      if sep == '/' && body == ("sed s/a/b/i").data then
        some [("sed s/a/b/i").data, ("a").data, ("b").data, ("i").data]
      else none }

/-- A command event carrying the host pre-match of the short form for the
body `s/([/x/`, whose pattern source `([` does not compile. -/
def demoEvtBad : Event :=
  { RoomID := ("!room").data, Sender := ("@alice").data, ID := ("$cmd1").data,
    Body := ("s/([/x/").data, ReplyTo := [],
    PassiveCommand := some
      { short := some { Captured :=
          [[("s/([/x/").data, [], ("/").data, ("([").data, ("x").data, []]] },
        long := none } }

/-- A command event carrying the host pre-match of the short form for the
body `s/a/b/`. -/
def demoEvtShort : Event :=
  { RoomID := ("!room").data, Sender := ("@alice").data, ID := ("$cmd2").data,
    Body := ("s/a/b/").data, ReplyTo := [],
    PassiveCommand := some
      { short := some { Captured :=
          [[("s/a/b/").data, [], ("/").data, ("a").data, ("b").data, []]] },
        long := none } }

/-- The same short-form body with no host pre-match: only the raw-text path
can run. -/
def demoEvtShortRaw : Event :=
  { RoomID := ("!room").data, Sender := ("@alice").data, ID := ("$cmd3").data,
    Body := ("s/a/b/").data, ReplyTo := [], PassiveCommand := none }

/-- An event whose passive-command structure is malformed: the first capture
row has one entry instead of six. -/
def demoEvtMalformed : Event :=
  { RoomID := ("!room").data, Sender := ("@alice").data, ID := ("$cmd4").data,
    Body := ("hello").data, ReplyTo := [],
    PassiveCommand := some
      { short := some { Captured := [[("x").data]] }, long := none } }

/-- A long-form command event with no host pre-match. -/
def demoEvtLong : Event :=
  { RoomID := ("!room").data, Sender := ("@alice").data, ID := ("$cmd5").data,
    Body := ("sed s/a/b/i").data, ReplyTo := [], PassiveCommand := none }

/-- Numbered plain events for exercising the ring buffer. -/
def mkDemoEvent (n : Nat) : Event :=
  { RoomID := ("!room").data, Sender := ("@alice").data,
    ID := [Char.ofNat (65 + n)], Body := [], ReplyTo := [],
    PassiveCommand := none }

/-- Eleven events, one more than the ring capacity. -/
def demoEvents : List Event := (List.range 11).map mkDemoEvent

/-- The empty plugin state. -/
def emptyBot : Sed := { prevEventMap := [], prevEventQueue := [] }

/-- A message store holding no events. -/
def emptyStore : List Char → List Char → Option Event := fun _ _ => none

/-- Replace the first `a` by `X`. -/
def stmtA : SedStatement :=
  { Find := litA, Replace := ("X").data, Global := false }

/-- Replace every `a` by `X`. -/
def stmtAg : SedStatement :=
  { Find := litA, Replace := ("X").data, Global := true }

/-- A statement whose pattern never matches. -/
def stmtNone : SedStatement :=
  { Find := noMatchRx, Replace := [], Global := false }

-- ## Supporting lemmas

namespace Rx

theorem void_rmatch (x : List Char) : rmatch .void x = false := by
  induction x <;> simp [rmatch, nullable, deriv, *]

theorem eps_rmatch (x : List Char) : rmatch .eps x = true ↔ x = [] := by
  cases x with
  | nil => simp [rmatch, nullable]
  | cons a as => simp [rmatch, deriv, void_rmatch]

theorem cls_rmatch (p : Char → Bool) (x : List Char) :
    rmatch (.cls p) x = true ↔ ∃ a, x = [a] ∧ p a = true := by
  cases x with
  | nil => simp [rmatch, nullable]
  | cons a as =>
    cases as with
    | nil =>
      simp only [rmatch, deriv]
      by_cases h : p a
      · simp [h, nullable]
      · simp [h, nullable, void_rmatch]
    | cons b bs =>
      simp only [rmatch, deriv]
      by_cases h : p a
      · simp [h, rmatch, deriv, void_rmatch]
      · simp [h, rmatch, deriv, void_rmatch]

theorem alt_rmatch (P Q : Rx) (x : List Char) :
    rmatch (.alt P Q) x = true ↔ rmatch P x = true ∨ rmatch Q x = true := by
  induction x generalizing P Q with
  | nil => simp [rmatch, nullable]
  | cons a as ih => simpa [rmatch, deriv] using ih (P.deriv a) (Q.deriv a)

theorem cat_rmatch (P Q : Rx) (x : List Char) :
    rmatch (.cat P Q) x = true ↔
      ∃ t u, x = t ++ u ∧ rmatch P t = true ∧ rmatch Q u = true := by
  induction x generalizing P Q with
  | nil =>
    simp only [rmatch, nullable, Bool.and_eq_true]
    constructor
    · rintro ⟨hP, hQ⟩
      exact ⟨[], [], rfl, hP, hQ⟩
    · rintro ⟨t, u, h, hP, hQ⟩
      rcases List.append_eq_nil.mp h.symm with ⟨ht, hu⟩
      subst ht; subst hu
      exact ⟨hP, hQ⟩
  | cons a as ih =>
    simp only [rmatch, deriv]
    by_cases hn : P.nullable
    · rw [if_pos hn, show Rx.rmatch (Rx.alt (Rx.cat (P.deriv a) Q) (Q.deriv a)) as =
          Rx.rmatch (Rx.alt (Rx.cat (P.deriv a) Q) (Q.deriv a)) as from rfl]
      rw [show (Rx.alt (Rx.cat (P.deriv a) Q) (Q.deriv a)).rmatch as = true ↔
            (Rx.cat (P.deriv a) Q).rmatch as = true ∨ (Q.deriv a).rmatch as = true from
            alt_rmatch _ _ _]
      rw [ih]
      constructor
      · rintro (⟨t, u, h, hP, hQ⟩ | h)
        · exact ⟨a :: t, u, by simp [h], by simpa [rmatch] using hP, hQ⟩
        · exact ⟨[], a :: as, rfl, hn, by simpa [rmatch] using h⟩
      · rintro ⟨t, u, h, hP, hQ⟩
        cases t with
        | nil =>
          right
          simp only [List.nil_append] at h
          subst h
          simpa [rmatch] using hQ
        | cons b t =>
          left
          simp only [List.cons_append, List.cons_eq_cons] at h
          refine ⟨t, u, h.2, ?_, hQ⟩
          have := h.1; subst this
          simpa [rmatch] using hP
    · rw [if_neg hn, ih]
      constructor
      · rintro ⟨t, u, h, hP, hQ⟩
        exact ⟨a :: t, u, by simp [h], by simpa [rmatch] using hP, hQ⟩
      · rintro ⟨t, u, h, hP, hQ⟩
        cases t with
        | nil =>
          simp only [List.nil_append] at h
          subst h
          simp only [rmatch] at hP
          exact absurd hP (by simp [hn])
        | cons b t =>
          simp only [List.cons_append, List.cons_eq_cons] at h
          refine ⟨t, u, h.2, ?_, hQ⟩
          have := h.1; subst this
          simpa [rmatch] using hP

theorem starCls_rmatch (p : Char → Bool) (x : List Char) :
    rmatch (.star (.cls p)) x = true ↔ ∀ c ∈ x, p c = true := by
  induction x with
  | nil => simp [rmatch, nullable]
  | cons a as ih =>
    simp only [rmatch, deriv]
    by_cases h : p a
    · rw [if_pos h]
      rw [show (Rx.cat Rx.eps (Rx.star (Rx.cls p))).rmatch as = true ↔
            ∃ t u, as = t ++ u ∧ Rx.rmatch Rx.eps t = true ∧
              Rx.rmatch (Rx.star (Rx.cls p)) u = true from cat_rmatch _ _ _]
      constructor
      · rintro ⟨t, u, heq, ht, hu⟩
        rw [eps_rmatch] at ht
        subst ht
        simp only [List.nil_append] at heq
        subst heq
        intro c hc
        rcases List.mem_cons.mp hc with hc | hc
        · subst hc; exact h
        · exact (ih.mp hu) c hc
      · intro hall
        refine ⟨[], as, rfl, by simp [rmatch, nullable], ih.mpr ?_⟩
        intro c hc
        exact hall c (List.mem_cons_of_mem _ hc)
    · rw [if_neg h]
      constructor
      · intro hm
        exact absurd hm (by
          rw [show (Rx.cat Rx.void (Rx.star (Rx.cls p))).rmatch as = true ↔
                ∃ t u, as = t ++ u ∧ Rx.rmatch Rx.void t = true ∧
                  Rx.rmatch (Rx.star (Rx.cls p)) u = true from cat_rmatch _ _ _]
          rintro ⟨t, u, _, ht, _⟩
          rw [void_rmatch] at ht
          exact Bool.false_ne_true ht)
      · intro hall
        exact absurd (hall a (List.mem_cons_self a as)) (by simp [h])

end Rx

theorem advanceLoopPos_ge (searchPos j n : Nat) : j ≤ advanceLoopPos searchPos j n := by
  unfold advanceLoopPos
  by_cases hw : searchPos < n <;>
    simp only [hw, if_true, if_false] <;>
    (repeat' split) <;> omega

theorem advanceLoopPos_pos (j n : Nat) : 1 ≤ advanceLoopPos 0 j n := by
  unfold advanceLoopPos
  by_cases hw : 0 < n <;>
    simp only [hw, if_true, if_false] <;>
    (repeat' split) <;> omega

theorem scan_chunks (src : List Char) {l i j : Nat} (hli : l ≤ i) (hij : i ≤ j) :
    (src.drop l).take (i - l) ++ ((src.drop i).take (j - i) ++ src.drop j) =
      src.drop l := by
  have h1 : src.drop i = (src.drop l).drop (i - l) := by
    rw [List.drop_drop]
    congr 1
    omega
  have h2 : src.drop j = (src.drop i).drop (j - i) := by
    rw [List.drop_drop]
    congr 1
    omega
  rw [h2, h1, List.take_append_drop, List.take_append_drop]

theorem replaceLoopF_id {σ : Type} (r : GoRx) (src : List Char)
    (f : σ → Nat × Nat → σ × List Char) (st : σ)
    (hf : ∀ ij, f st ij = (st, (src.drop ij.1).take (ij.2 - ij.1))) :
    ∀ fuel lastMatchEnd searchPos, lastMatchEnd ≤ searchPos →
      replaceLoopF r src f fuel st lastMatchEnd searchPos = src.drop lastMatchEnd := by
  intro fuel
  induction fuel with
  | zero => intro l p _; rfl
  | succ fuel ih =>
    intro l p hlp
    simp only [replaceLoopF]
    by_cases hp : p ≤ src.length
    · rw [if_pos hp]
      cases hfind : r.find src p with
      | none => rfl
      | some ij =>
        obtain ⟨i, j⟩ := ij
        dsimp only
        by_cases hg : p ≤ i ∧ i ≤ j ∧ j ≤ src.length
        · obtain ⟨hg1, hg2, hg3⟩ := hg
          rw [if_pos ⟨hg1, hg2, hg3⟩]
          by_cases hrep : j > l ∨ i = 0
          · rw [if_pos hrep, hf (i, j)]
            rw [ih j (advanceLoopPos p j src.length) (advanceLoopPos_ge p j src.length)]
            rw [List.append_assoc]
            exact scan_chunks src (le_trans hlp hg1) hg2
          · rw [if_neg hrep]
            push_neg at hrep
            have hi : i = l := by omega
            have hj : j = l := by omega
            rw [ih j (advanceLoopPos p j src.length) (advanceLoopPos_ge p j src.length)]
            rw [hi, hj]
            simp
        · rw [if_neg hg]
    · rw [if_neg hp]

theorem replaceLoopF_end {σ : Type} (r : GoRx) (src : List Char)
    (f : σ → Nat × Nat → σ × List Char) :
    ∀ fuel (st : σ) searchPos, 1 ≤ searchPos → src.length ≤ searchPos →
      replaceLoopF r src f fuel st src.length searchPos = [] := by
  intro fuel
  induction fuel with
  | zero => intro st p _ _; simp [replaceLoopF]
  | succ fuel ih =>
    intro st p h1 hp
    simp only [replaceLoopF]
    by_cases hple : p ≤ src.length
    · have hpeq : p = src.length := le_antisymm hple hp
      rw [if_pos hple]
      cases hfind : r.find src p with
      | none => simp
      | some ij =>
        obtain ⟨i, j⟩ := ij
        dsimp only
        by_cases hg : p ≤ i ∧ i ≤ j ∧ j ≤ src.length
        · obtain ⟨hg1, hg2, hg3⟩ := hg
          rw [if_pos ⟨hg1, hg2, hg3⟩]
          have hi : i = src.length := by omega
          have hj : j = src.length := by omega
          have hrep : ¬ (j > src.length ∨ i = 0) := by omega
          rw [if_neg hrep, hj]
          have hadv1 : src.length ≤ advanceLoopPos p src.length src.length :=
            advanceLoopPos_ge p src.length src.length
          have hadv2 : 1 ≤ advanceLoopPos p src.length src.length := by omega
          rw [ih st _ hadv2 hadv1, hi]
          simp
        · rw [if_neg hg]
          simp
    · rw [if_neg hple]
      simp

theorem replaceLoopF_noMatch {σ : Type} (r : GoRx) (src : List Char)
    (f : σ → Nat × Nat → σ × List Char) (fuel : Nat) (st : σ)
    (h : r.find src 0 = none) :
    replaceLoopF r src f (fuel + 1) st 0 0 = src := by
  simp only [replaceLoopF]
  rw [if_pos (Nat.zero_le _), h]
  dsimp only
  simp

theorem goReplaceAll_whole (r : GoRx) (m tmpl : List Char)
    (h : r.find m 0 = some (0, m.length)) :
    goReplaceAll r m tmpl = r.render tmpl m (0, m.length) := by
  unfold goReplaceAll
  simp only [replaceLoopF]
  rw [if_pos (Nat.zero_le _), h]
  dsimp only
  rw [if_pos ⟨le_refl 0, Nat.zero_le _, le_refl _⟩]
  rw [if_pos (Or.inr rfl)]
  have hadv1 : m.length ≤ advanceLoopPos 0 m.length m.length :=
    advanceLoopPos_ge 0 m.length m.length
  have hadv2 : 1 ≤ advanceLoopPos 0 m.length m.length :=
    advanceLoopPos_pos m.length m.length
  rw [replaceLoopF_end r m _ m.length _ _ hadv2 hadv1]
  simp

/-- Zero matches leave the body unchanged, for both execution modes. -/
theorem Exec_zeroMatch (sed : SedStatement) (body : List Char)
    (h : sed.Find.find body 0 = none) : sed.Exec body = body := by
  unfold SedStatement.Exec
  by_cases hg : sed.Global = true
  · rw [if_pos hg]
    unfold goReplaceAll
    exact replaceLoopF_noMatch _ _ _ _ _ h
  · rw [if_neg hg]
    exact replaceLoopF_noMatch _ _ _ _ _ h

/-- Claim C7: for every body and every non-global statement whose pattern
matches the body (leftmost match span `(s, e)`, rescanning the matched text
standalone re-matching it wholly, as context-free regexes do), `Exec`
replaces exactly that first match with the rendered replacement: the text
before `s` and from `e` on is copied verbatim – so all other occurrences are
untouched and the replaced region is never re-scanned. -/
theorem Exec_nonGlobal_replaces_first (sed : SedStatement) (body : List Char)
    (s e : Nat) (hg : sed.Global = false)
    (hfind : sed.Find.find body 0 = some (s, e))
    (hse : s ≤ e) (hlen : e ≤ body.length)
    (hres : sed.Find.find ((body.drop s).take (e - s)) 0 =
        some (0, ((body.drop s).take (e - s)).length)) :
    sed.Exec body =
      body.take s ++
        sed.Find.render sed.Replace ((body.drop s).take (e - s))
          (0, ((body.drop s).take (e - s)).length) ++
        body.drop e := by
  unfold SedStatement.Exec
  rw [if_neg (by rw [hg]; exact Bool.false_ne_true)]
  simp only [replaceLoopF]
  rw [if_pos (Nat.zero_le _), hfind]
  dsimp only
  rw [if_pos ⟨Nat.zero_le s, hse, hlen⟩]
  rw [if_pos (by omega : e > 0 ∨ s = 0)]
  simp only [Bool.false_eq_true, if_false]
  rw [replaceLoopF_id sed.Find body _ true (fun ij => rfl) body.length e
      (advanceLoopPos 0 e body.length) (advanceLoopPos_ge 0 e body.length)]
  rw [goReplaceAll_whole sed.Find _ sed.Replace hres]
  simp

/-- Witness for C7: the statement `s/a/X/` applied to the body `ba` rewrites
exactly the single match, yielding `bX`. -/
theorem Exec_nonGlobal_replaces_first_w :
    litA.find (("ba").data) 0 = some (1, 2) ∧
      stmtA.Exec (("ba").data) = ("bX").data :=
  ⟨by decide,
    (Exec_nonGlobal_replaces_first stmtA (("ba").data) 1 2 rfl (by decide)
      (by decide) (by decide) (by decide)).trans (by decide)⟩

/-- Claim C8: `Exec` is a pure function of its arguments; with zero matches
it returns the body unchanged, and for global statements whose pattern no
longer matches the result, re-applying `Exec` is idempotent. -/
theorem Exec_pure_zeroMatch_idempotent :
    (∀ (sed : SedStatement) (body : List Char),
        sed.Find.find body 0 = none → sed.Exec body = body) ∧
    (∀ (sed : SedStatement) (body : List Char), sed.Global = true →
        sed.Find.find (sed.Exec body) 0 = none →
        sed.Exec (sed.Exec body) = sed.Exec body) :=
  ⟨fun sed body h => Exec_zeroMatch sed body h,
   fun sed body _ h => Exec_zeroMatch sed (sed.Exec body) h⟩

/-- Witness for C8: a non-matching body passes through unchanged, and the
global statement `s/a/X/g` is idempotent once its pattern is gone. -/
theorem Exec_pure_zeroMatch_idempotent_w :
    litA.find (("zz").data) 0 = none ∧
      stmtA.Exec (("zz").data) = ("zz").data ∧
      stmtAg.Exec (stmtAg.Exec (("a").data)) = stmtAg.Exec (("a").data) :=
  ⟨by decide,
    Exec_pure_zeroMatch_idempotent.1 stmtA (("zz").data) (by decide),
    Exec_pure_zeroMatch_idempotent.2 stmtAg (("a").data) rfl (by decide)⟩

theorem compileStatement_shape (lib : RegexpLib) (sep : Char) (body : List Char) :
    (compileStatement lib sep body).1 = none ∨
      (compileStatement lib sep body).2 = none := by
  unfold compileStatement
  cases lib.longFindSubmatch sep body with
  | none => left; rfl
  | some row =>
    dsimp only
    by_cases hl : row.length ≠ 4
    · rw [if_pos hl]; left; rfl
    · rw [if_neg hl]
      cases lib.compile (row.getD 1 []) with
      | error e => left; rfl
      | ok regex => right; rfl

theorem rawParse_shape (lib : RegexpLib) (evt : Event) :
    (rawParse lib evt).1 = none ∨ (rawParse lib evt).2 = none := by
  unfold rawParse
  cases findFullStatement evt.Body with
  | none => left; rfl
  | some sep => exact compileStatement_shape lib sep evt.Body

theorem ParseEvent_shape (lib : RegexpLib) (evt : Event) :
    (ParseEvent lib evt).1 = none ∨ (ParseEvent lib evt).2 = none := by
  unfold ParseEvent
  rcases hc : compilePassiveStatement lib evt with ⟨os, oe⟩
  cases os with
  | some s =>
    cases oe with
    | some e => left; rfl
    | none => right; rfl
  | none =>
    cases oe with
    | some e => left; rfl
    | none => exact rawParse_shape lib evt

/-- Claim C1 (code bug): when parsing fails with a compile error,
`MessageHandler` returns `Continue` with no reply emitted and no fallback
scan attempted: `ParseEvent` only reports errors together with a nil
statement, and the handler tests `sed == nil` before `err != nil`, so the
error-reply branch is unreachable and the claimed `Failed` outcome with an
error reply never happens. -/
theorem MessageHandler_malformed_pattern (lib : RegexpLib)
    (getEvent : List Char → List Char → Option Event) (bot : Sed) (evt : Event)
    (e : List Char) (h : (ParseEvent lib evt).2 = some e) :
    MessageHandler lib getEvent bot evt =
      (.Continue, [], RegisterPrevEvent bot evt) := by
  have h1 : (ParseEvent lib evt).1 = none := by
    rcases ParseEvent_shape lib evt with h1 | h2
    · exact h1
    · rw [h] at h2; exact absurd h2 (by simp)
  unfold MessageHandler
  rcases hp : ParseEvent lib evt with ⟨os, oe⟩
  rw [hp] at h1
  dsimp only at h1
  subst h1
  rfl

/-- Witness for C1 at the failing input: the passive short command `s/([/x/`
fails to compile with Go's message, and the handler returns `Continue` with
no reply. -/
theorem MessageHandler_malformed_pattern_w :
    (ParseEvent demoLibBad demoEvtBad).2 =
        some (errPre ++ ("missing closing )").data) ∧
      MessageHandler demoLibBad emptyStore emptyBot demoEvtBad =
        (.Continue, [], RegisterPrevEvent emptyBot demoEvtBad) :=
  ⟨by decide,
    MessageHandler_malformed_pattern demoLibBad emptyStore emptyBot demoEvtBad
      (errPre ++ ("missing closing )").data) (by decide)⟩

/-- Claim C6 (code bug): the missing-entry lookup paths of `GetPrevEvent` and
`TryReplaceRecentEvent` return while the read lock is still held: their
traces contain the acquisition but no release, so the lock is not released
before every return as claimed. -/
theorem historyLock_leaked_on_missing_entry :
    (GetPrevEvent emptyStore emptyBot (("!room").data) (("@alice").data)).2 =
        [Act.rlock] ∧
      locksBalanced
        (GetPrevEvent emptyStore emptyBot (("!room").data) (("@alice").data)).2 =
        false ∧
      (TryReplaceRecentEvent emptyBot stmtNone demoEvtShortRaw).2 = [Act.rlock] ∧
      locksBalanced (TryReplaceRecentEvent emptyBot stmtNone demoEvtShortRaw).2 =
        false :=
  ⟨by decide, by decide, by decide, by decide⟩

/-- Claim C10: a present passive command whose captured-groups structure is
malformed (no capture rows, or a first row without exactly six entries) is
silently treated as if no pre-match were present: no statement, no error, and
`ParseEvent` falls through to the raw-text path. -/
theorem compilePassiveStatement_malformed (lib : RegexpLib) (evt : Event)
    (pc : PassiveCommandMap) (mc : MatchedPassiveCommand)
    (hpc : evt.PassiveCommand = some pc)
    (hmc : pc.short = some mc ∨ (pc.short = none ∧ pc.long = some mc))
    (hbad : mc.Captured.length = 0 ∨ (mc.Captured.headD []).length ≠ 6) :
    compilePassiveStatement lib evt = (none, none) ∧
      ParseEvent lib evt = rawParse lib evt := by
  have h1 : compilePassiveStatement lib evt = (none, none) := by
    unfold compilePassiveStatement
    rw [hpc]
    dsimp only
    rcases hmc with hs | ⟨hs, hl⟩
    · rw [hs]
      dsimp only
      rw [if_pos hbad]
    · rw [hs]
      dsimp only
      rw [hl]
      dsimp only
      rw [if_pos hbad]
  refine ⟨h1, ?_⟩
  unfold ParseEvent
  rw [h1]

/-- Witness for C10: a one-entry first capture row is ignored and parsing
proceeds on the raw-text path. -/
theorem compilePassiveStatement_malformed_w :
    compilePassiveStatement demoLibA demoEvtMalformed = (none, none) ∧
      ParseEvent demoLibA demoEvtMalformed = rawParse demoLibA demoEvtMalformed :=
  compilePassiveStatement_malformed demoLibA demoEvtMalformed _ _ rfl
    (Or.inl rfl) (Or.inr (by decide))

/-- Claim C5 (code bug): the long-form command `sed s/a/b/i` parses to a
statement with `Global = false` whose pattern is compiled with no
case-folding: it rewrites `a` but leaves `A` unchanged, so the `i` flag is
extracted but never applied (`compileStatement` reads the flags only to look
for `g`). -/
theorem iFlag_not_honored :
    (ParseEvent demoLibA demoEvtLong).1.map (fun st => st.Global) = some false ∧
      (ParseEvent demoLibA demoEvtLong).1.map (fun st => st.Exec (("a").data)) =
        some (("b").data) ∧
      (ParseEvent demoLibA demoEvtLong).1.map (fun st => st.Exec (("A").data)) =
        some (("A").data) :=
  ⟨by decide, by decide, by decide⟩

/-- Counterexample to claim C3: the short-form body `s/a/b/` is accepted by
the registered short-form grammar and yields a statement on the pre-matched
path, but the raw-text fallback derives nothing from it, because that path
only looks for the long-form token `sed s`. -/
theorem rawPath_misses_short_form :
    shortRx.rmatch (("s/a/b/").data) = true ∧
      (compilePassiveStatement demoLibA demoEvtShort).1.isSome = true ∧
      (ParseEvent demoLibA demoEvtShort).1.isSome = true ∧
      rawParse demoLibA demoEvtShortRaw = (none, none) ∧
      ParseEvent demoLibA demoEvtShortRaw = (none, none) :=
  ⟨by decide, by decide, by decide, by rfl, by rfl⟩

/-- Amended claim C3: the raw-text fallback recognizes only the long form.
Whenever the token `sed s` does not occur in the lowercased body, the
raw-text derivation yields no statement and no error, whatever the regexp
library returns; a short-form-only message is reachable solely through the
host pre-matched path. -/
theorem rawParse_requires_long_token (lib : RegexpLib) (evt : Event)
    (h : strIndex (evt.Body.map Char.toLower) sedSToken = none) :
    rawParse lib evt = (none, none) := by
  unfold rawParse findFullStatement
  rw [h]

/-- Witness for the amended C3 at the short-form body `s/a/b/`. -/
theorem rawParse_requires_long_token_w :
    strIndex (((("s/a/b/").data)).map Char.toLower) sedSToken = none ∧
      rawParse demoLibA demoEvtShortRaw = (none, none) :=
  ⟨by decide, rawParse_requires_long_token demoLibA demoEvtShortRaw (by decide)⟩

theorem segRx_rmatch (w : List Char) : segRx.rmatch w = true ↔ SegStr w := by
  unfold segRx SegStr dotCls notBackslashCls
  rw [Rx.cat_rmatch]
  constructor
  · rintro ⟨t, u, heq, ht, hu⟩
    rw [Rx.starCls_rmatch] at ht
    rw [Rx.alt_rmatch] at hu
    refine ⟨t, u, heq, ?_, ?_⟩
    · intro c hc
      simpa using ht c hc
    · rcases hu with hu | hu
      · rw [Rx.cls_rmatch] at hu
        obtain ⟨c, hc, hpc⟩ := hu
        exact Or.inr ⟨c, hc, by simpa using hpc⟩
      · rw [Rx.eps_rmatch] at hu
        exact Or.inl hu
  · rintro ⟨a, b, heq, ha, hb⟩
    refine ⟨a, b, heq, ?_, ?_⟩
    · rw [Rx.starCls_rmatch]
      intro c hc
      simpa using ha c hc
    · rw [Rx.alt_rmatch]
      rcases hb with hb | ⟨c, hbc, hc⟩
      · right
        rw [Rx.eps_rmatch]
        exact hb
      · left
        rw [Rx.cls_rmatch]
        exact ⟨c, hbc, by simpa using hc⟩

theorem delimCls_rmatch (w : List Char) :
    delimCls.rmatch w = true ↔ ∃ d, w = [d] ∧ (d = '#' ∨ d = '/') := by
  unfold delimCls
  rw [Rx.cls_rmatch]
  constructor
  · rintro ⟨a, ha, hp⟩
    exact ⟨a, ha, by simpa using hp⟩
  · rintro ⟨d, hd, hor⟩
    exact ⟨d, hd, by simpa using hor⟩

theorem shortTailRx_rmatch (w : List Char) :
    shortTailRx.rmatch w = true ↔
      (w = [] ∨ ∃ d f, w = d :: f ∧ (d = '#' ∨ d = '/') ∧ FlagsStr f) := by
  unfold shortTailRx
  rw [Rx.alt_rmatch]
  constructor
  · rintro (h | h)
    · rw [Rx.cat_rmatch] at h
      obtain ⟨t, u, heq, ht, hu⟩ := h
      rw [delimCls_rmatch] at ht
      obtain ⟨d, rfl, hd⟩ := ht
      right
      refine ⟨d, u, by simp [heq], hd, ?_⟩
      rw [Rx.alt_rmatch] at hu
      rcases hu with hu | hu
      · rw [Rx.cat_rmatch] at hu
        obtain ⟨t1, u1, hequ, ht1, hu1⟩ := hu
        unfold giCls at ht1 hu1
        rw [Rx.cls_rmatch] at ht1
        rw [Rx.starCls_rmatch] at hu1
        obtain ⟨c, rfl, hc⟩ := ht1
        intro x hx
        rw [hequ] at hx
        rcases List.mem_cons.mp (by simpa using hx) with hx1 | hx1
        · subst hx1; simpa using hc
        · simpa using hu1 x hx1
      · rw [Rx.eps_rmatch] at hu
        subst hu
        intro x hx
        simp at hx
    · rw [Rx.eps_rmatch] at h
      left
      exact h
  · rintro (rfl | ⟨d, f, rfl, hd, hf⟩)
    · right
      rw [Rx.eps_rmatch]
    · left
      rw [Rx.cat_rmatch]
      refine ⟨[d], f, rfl, ?_, ?_⟩
      · rw [delimCls_rmatch]
        exact ⟨d, rfl, hd⟩
      · rw [Rx.alt_rmatch]
        cases f with
        | nil =>
          right
          rw [Rx.eps_rmatch]
        | cons c rest =>
          left
          rw [Rx.cat_rmatch]
          refine ⟨[c], rest, rfl, ?_, ?_⟩
          · unfold giCls
            rw [Rx.cls_rmatch]
            exact ⟨c, rfl, by simpa using hf c (by simp)⟩
          · unfold giCls
            rw [Rx.starCls_rmatch]
            intro x hx
            simpa using hf x (by simp [hx])

/-- Amended claim C4: the short form matches exactly when the text is `s`,
then a delimiter drawn from `#`/`/`, pattern, a second independently chosen
such delimiter, replacement, and optionally a third such delimiter followed
by flags drawn from `[gi]*` – the trailing delimiter-plus-flags part may be
absent, the delimiters need not agree, and a delimiter outside `#`/`/` never
matches.  The match is anchored at both ends. -/
theorem shortRx_rmatch_iff (x : List Char) :
    shortRx.rmatch x = true ↔ ShortFormAmended x := by
  unfold shortRx ShortFormAmended
  rw [Rx.cat_rmatch]
  constructor
  · rintro ⟨t0, u0, heq0, ht0, hu0⟩
    rw [Rx.cls_rmatch] at ht0
    obtain ⟨c0, rfl, hc0⟩ := ht0
    have hc0' : c0 = 's' := by simpa using hc0
    subst hc0'
    rw [Rx.cat_rmatch] at hu0
    obtain ⟨t1, u1, heq1, ht1, hu1⟩ := hu0
    rw [delimCls_rmatch] at ht1
    obtain ⟨d1, rfl, hd1⟩ := ht1
    rw [Rx.cat_rmatch] at hu1
    obtain ⟨p, u2, heq2, hp, hu2⟩ := hu1
    rw [segRx_rmatch] at hp
    rw [Rx.cat_rmatch] at hu2
    obtain ⟨t3, u3, heq3, ht3, hu3⟩ := hu2
    rw [delimCls_rmatch] at ht3
    obtain ⟨d2, rfl, hd2⟩ := ht3
    rw [Rx.cat_rmatch] at hu3
    obtain ⟨rr, sfx, heq4, hr, hsfx⟩ := hu3
    rw [segRx_rmatch] at hr
    rw [shortTailRx_rmatch] at hsfx
    refine ⟨d1, p, d2, rr, sfx, ?_, hd1, hd2, hp, hr, hsfx⟩
    rw [heq0, heq1, heq2, heq3, heq4]
    simp
  · rintro ⟨d1, p, d2, rr, sfx, heq, hd1, hd2, hp, hr, hsfx⟩
    refine ⟨['s'], d1 :: (p ++ d2 :: (rr ++ sfx)), by simp [heq], ?_, ?_⟩
    · rw [Rx.cls_rmatch]
      exact ⟨'s', rfl, by simp⟩
    · rw [Rx.cat_rmatch]
      refine ⟨[d1], p ++ d2 :: (rr ++ sfx), rfl, ?_, ?_⟩
      · rw [delimCls_rmatch]
        exact ⟨d1, rfl, hd1⟩
      · rw [Rx.cat_rmatch]
        refine ⟨p, d2 :: (rr ++ sfx), rfl, (segRx_rmatch p).mpr hp, ?_⟩
        rw [Rx.cat_rmatch]
        refine ⟨[d2], rr ++ sfx, rfl, ?_, ?_⟩
        · rw [delimCls_rmatch]
          exact ⟨d2, rfl, hd2⟩
        · rw [Rx.cat_rmatch]
          refine ⟨rr, sfx, rfl, (segRx_rmatch rr).mpr hr, ?_⟩
          rw [shortTailRx_rmatch]
          exact hsfx

/-- Counterexample to claim C4: `s.a.b.` is a well-formed command under the
claimed grammar (delimiter `.`, pattern `a`, replacement `b`, empty flags),
but the registered short-form pattern rejects it, because its delimiter
class is `[#/]`, not any character. -/
theorem shortForm_spec_refuted :
    ¬ (shortRx.rmatch (("s.a.b.").data) = true ↔
        SpecShortForm (("s.a.b.").data)) := by
  intro h
  have hs : SpecShortForm (("s.a.b.").data) := by
    refine ⟨'.', ("a").data, ("b").data, [], by decide, ?_, ?_, ?_⟩
    · exact ⟨("a").data, [], by simp, by decide, Or.inl rfl⟩
    · exact ⟨("b").data, [], by simp, by decide, Or.inl rfl⟩
    · intro c hc
      simp at hc
  exact absurd (h.mpr hs) (by decide)

/-- Witness for the amended C4: `s#a/b` (mixed delimiters, no trailing
delimiter) is accepted by the registered short-form pattern. -/
theorem shortRx_rmatch_iff_w :
    shortRx.rmatch (("s#a/b").data) = true :=
  (shortRx_rmatch_iff (("s#a/b").data)).mpr
    ⟨'#', ("a").data, '/', ("b").data, [], by decide, Or.inl rfl, Or.inr rfl,
      ⟨("a").data, [], by simp, by decide, Or.inl rfl⟩,
      ⟨("b").data, [], by simp, by decide, Or.inl rfl⟩, Or.inl rfl⟩

theorem ringAfter_append (es : List Event) (e : Event) :
    ringAfter (es ++ [e]) = (ringAfter es).Add e := by
  unfold ringAfter
  rw [List.foldl_append]
  rfl

theorem ringAfter_len (es : List Event) : (ringAfter es).List.length = 10 := by
  induction es using List.reverseRecOn with
  | nil => rfl
  | append_singleton es e ih =>
    rw [ringAfter_append]
    simp only [EventQueue.Add, List.length_set]
    exact ih

theorem ringAfter_ptr (es : List Event) : (ringAfter es).Ptr = es.length % 10 := by
  induction es using List.reverseRecOn with
  | nil => rfl
  | append_singleton es e ih =>
    rw [ringAfter_append]
    simp only [EventQueue.Add, ringAfter_len es, ih, List.length_append,
      List.length_cons, List.length_nil]
    omega

theorem getD_set_ring (l : List (Option Event)) (ptr j : Nat) (v : Option Event)
    (hp : ptr < l.length) :
    (l.set ptr v).getD j none = if ptr = j then v else l.getD j none := by
  rw [List.getD_eq_getElem?_getD, List.getD_eq_getElem?_getD]
  by_cases h : ptr = j
  · subst h
    rw [if_pos rfl, List.getElem?_set_eq_of_lt v hp]
    rfl
  · rw [if_neg h, List.getElem?_set_ne h]

theorem ringAfter_slot_lt :
    ∀ (es : List Event), es.length ≤ 10 → ∀ j, j < 10 →
      (ringAfter es).List.getD j none =
        if j < es.length then es[j]? else none := by
  intro es
  induction es using List.reverseRecOn with
  | nil =>
    intro _ j hj
    rw [show (ringAfter []).List = List.replicate 10 none from rfl,
      List.getD_eq_getElem?_getD, List.getElem?_replicate]
    simp [hj]
  | append_singleton es e ih =>
    intro hlt j hj
    have h9 : es.length ≤ 9 := by
      rw [List.length_append, List.length_cons, List.length_nil] at hlt
      omega
    rw [ringAfter_append]
    simp only [EventQueue.Add]
    rw [getD_set_ring _ _ _ _ (by rw [ringAfter_len, ringAfter_ptr]; omega)]
    rw [ringAfter_ptr]
    have hptr : es.length % 10 = es.length := by omega
    rw [hptr]
    simp only [List.length_append, List.length_cons, List.length_nil]
    by_cases hje : es.length = j
    · subst hje
      rw [if_pos rfl, if_pos (by omega), List.getElem?_concat_length]
    · rw [if_neg hje, ih (by omega) j hj]
      by_cases hjlt : j < es.length
      · rw [if_pos hjlt, if_pos (by omega), List.getElem?_append, if_pos hjlt]
      · rw [if_neg hjlt, if_neg (by omega)]

theorem ringAfter_slot_ge :
    ∀ (es : List Event), 10 ≤ es.length → ∀ j, j < 10 →
      (ringAfter es).List.getD j none =
        es[es.length - 1 - ((es.length - 1 - j) % 10)]? := by
  intro es
  induction es using List.reverseRecOn with
  | nil => intro h; simp at h
  | append_singleton es e ih =>
    intro hge j hj
    rw [ringAfter_append]
    simp only [EventQueue.Add]
    rw [getD_set_ring _ _ _ _ (by rw [ringAfter_len, ringAfter_ptr]; omega)]
    rw [ringAfter_ptr]
    simp only [List.length_append, List.length_cons, List.length_nil]
    by_cases hj0 : es.length % 10 = j
    · rw [if_pos hj0]
      have hidx : es.length + 1 - 1 - ((es.length + 1 - 1 - j) % 10) = es.length := by
        omega
      rw [hidx, List.getElem?_concat_length]
    · rw [if_neg hj0]
      rcases Nat.lt_or_ge es.length 10 with h10 | h10
      · have h9 : es.length = 9 := by
          rw [List.length_append, List.length_cons, List.length_nil] at hge
          omega
        rw [ringAfter_slot_lt es (by omega) j hj]
        have hjlt : j < es.length := by omega
        rw [if_pos hjlt]
        have hidx : es.length + 1 - 1 - ((es.length + 1 - 1 - j) % 10) = j := by
          omega
        rw [hidx, List.getElem?_append, if_pos hjlt]
      · rw [ih h10 j hj]
        have hlt : es.length - 1 - ((es.length - 1 - j) % 10) < es.length := by
          omega
        have hidx : es.length + 1 - 1 - ((es.length + 1 - 1 - j) % 10) =
            es.length - 1 - ((es.length - 1 - j) % 10) := by
          omega
        rw [hidx, List.getElem?_append, if_pos hlt]

theorem ringAfter_visit (es : List Event) (hge : 10 ≤ es.length) (t : Nat)
    (_h1 : 1 ≤ t) (_h2 : t ≤ 10) :
    (ringAfter es).List.getD
        ((t + (ringAfter es).Ptr) % (ringAfter es).List.length) none =
      es[es.length - 10 + t % 10]? := by
  rw [ringAfter_ptr, ringAfter_len]
  rw [ringAfter_slot_ge es hge _ (Nat.mod_lt _ (by omega))]
  congr 1
  omega

theorem scanSlots_succ (q : EventQueue) (i' i : Nat) (hi : i' = i + 1) (e : Event)
    (h : q.List.getD ((i + 1 + q.Ptr) % q.List.length) none = some e) :
    scanSlots q i' = e :: scanSlots q i := by
  subst hi
  simp only [scanSlots]
  rw [h]

theorem take_one_cons (a : Event) (l : List Event) : (a :: l).take 1 = [a] := rfl

/-- Amended claim C2: after recording at least ten messages, the fallback
scan yields at most ten entries and exactly the ten most recently recorded
messages, skipping no filled slot -- but the iteration starts with the oldest
retained (tenth-most-recent) entry and only then visits the remaining nine
from most-recently-inserted to least-recently-inserted. -/
theorem recentScanOrder_after (es : List Event) (hge : 10 ≤ es.length) :
    recentScanOrder (ringAfter es) =
      (es.drop (es.length - 10)).take 1 ++
        (es.drop (es.length - 9)).reverse := by
  have hv : ∀ t, 1 ≤ t → t ≤ 10 →
      (ringAfter es).List.getD
          ((t + (ringAfter es).Ptr) % (ringAfter es).List.length) none =
        some (es.get ⟨es.length - 10 + t % 10, by omega⟩) := by
    intro t h1 h2
    rw [ringAfter_visit es hge t h1 h2,
      List.getElem?_eq_getElem (show es.length - 10 + t % 10 < es.length by omega)]
    rfl
  have s10 := scanSlots_succ (ringAfter es) 10 9 (by norm_num)
    (es.get ⟨es.length - 10, by omega⟩) (hv 10 (by omega) (by omega))
  have s9 := scanSlots_succ (ringAfter es) 9 8 (by norm_num)
    (es.get ⟨es.length - 10 + 9, by omega⟩) (hv 9 (by omega) (by omega))
  have s8 := scanSlots_succ (ringAfter es) 8 7 (by norm_num)
    (es.get ⟨es.length - 10 + 8, by omega⟩) (hv 8 (by omega) (by omega))
  have s7 := scanSlots_succ (ringAfter es) 7 6 (by norm_num)
    (es.get ⟨es.length - 10 + 7, by omega⟩) (hv 7 (by omega) (by omega))
  have s6 := scanSlots_succ (ringAfter es) 6 5 (by norm_num)
    (es.get ⟨es.length - 10 + 6, by omega⟩) (hv 6 (by omega) (by omega))
  have s5 := scanSlots_succ (ringAfter es) 5 4 (by norm_num)
    (es.get ⟨es.length - 10 + 5, by omega⟩) (hv 5 (by omega) (by omega))
  have s4 := scanSlots_succ (ringAfter es) 4 3 (by norm_num)
    (es.get ⟨es.length - 10 + 4, by omega⟩) (hv 4 (by omega) (by omega))
  have s3 := scanSlots_succ (ringAfter es) 3 2 (by norm_num)
    (es.get ⟨es.length - 10 + 3, by omega⟩) (hv 3 (by omega) (by omega))
  have s2 := scanSlots_succ (ringAfter es) 2 1 (by norm_num)
    (es.get ⟨es.length - 10 + 2, by omega⟩) (hv 2 (by omega) (by omega))
  have s1 := scanSlots_succ (ringAfter es) 1 0 (by norm_num)
    (es.get ⟨es.length - 10 + 1, by omega⟩) (hv 1 (by omega) (by omega))
  unfold recentScanOrder
  rw [ringAfter_len, s10, s9, s8, s7, s6, s5, s4, s3, s2, s1]
  rw [show scanSlots (ringAfter es) 0 = [] from rfl]
  have hs : ∀ m (hm : m < es.length), es.drop m = es[m] :: es.drop (m + 1) :=
    fun m hm => List.drop_eq_getElem_cons hm
  rw [hs (es.length - 10) (by omega), take_one_cons]
  rw [show es.length - 9 = es.length - 10 + 1 from by omega]
  rw [hs (es.length - 10 + 1) (by omega)]
  rw [hs (es.length - 10 + 1 + 1) (by omega)]
  rw [hs (es.length - 10 + 1 + 1 + 1) (by omega)]
  rw [hs (es.length - 10 + 1 + 1 + 1 + 1) (by omega)]
  rw [hs (es.length - 10 + 1 + 1 + 1 + 1 + 1) (by omega)]
  rw [hs (es.length - 10 + 1 + 1 + 1 + 1 + 1 + 1) (by omega)]
  rw [hs (es.length - 10 + 1 + 1 + 1 + 1 + 1 + 1 + 1) (by omega)]
  rw [hs (es.length - 10 + 1 + 1 + 1 + 1 + 1 + 1 + 1 + 1) (by omega)]
  rw [hs (es.length - 10 + 1 + 1 + 1 + 1 + 1 + 1 + 1 + 1 + 1) (by omega)]
  have hnil :
      List.drop (es.length - 10 + 1 + 1 + 1 + 1 + 1 + 1 + 1 + 1 + 1 + 1) es = [] :=
    List.drop_eq_nil_of_le (by omega)
  rw [hnil]
  simp only [List.reverse_cons, List.reverse_nil, List.nil_append,
    List.append_assoc, List.cons_append, List.singleton_append,
    List.get_eq_getElem]

/-- Counterexample to claim C2: after recording eleven events, the fallback
scan does not yield the ten most recent in most-recent-first order (it
visits the oldest retained entry first). -/
theorem recentScanOrder_not_reverse :
    ¬ (recentScanOrder (ringAfter demoEvents) = (demoEvents.drop 1).reverse) := by
  decide

/-- Witness for the amended C2 at eleven recorded events. -/
theorem recentScanOrder_after_w :
    10 ≤ demoEvents.length ∧
      recentScanOrder (ringAfter demoEvents) =
        (demoEvents.drop (demoEvents.length - 10)).take 1 ++
          (demoEvents.drop (demoEvents.length - 9)).reverse :=
  ⟨by decide, recentScanOrder_after demoEvents (by decide)⟩

theorem TryReplaceEvent_reply_target (sed : SedStatement) (o t : Event)
    (b : List Char) (h : Act.reply t b ∈ (TryReplaceEvent sed o).2) : t = o := by
  unfold TryReplaceEvent at h
  by_cases hc : (sed.Exec o.Body == o.Body) = true
  · rw [if_pos hc] at h
    simp at h
  · rw [if_neg hc] at h
    simp only [List.mem_singleton, Act.reply.injEq] at h
    exact h.1

theorem TryReplaceRecentEvent_reply_target (bot : Sed) (sed : SedStatement)
    (evt t : Event) (b : List Char)
    (h : Act.reply t b ∈ (TryReplaceRecentEvent bot sed evt).2) :
    ∃ q, mapGet bot.prevEventQueue evt.RoomID = some q ∧
      t ∈ recentScanOrder q := by
  unfold TryReplaceRecentEvent at h
  rcases hq : mapGet bot.prevEventQueue evt.RoomID with _ | q
  · rw [hq] at h
    simp at h
  · rw [hq] at h
    dsimp only at h
    rcases hf : (recentScanOrder q).find? (fun o => (TryReplaceEvent sed o).1)
      with _ | o
    · rw [hf] at h
      simp at h
    · rw [hf] at h
      dsimp only at h
      simp only [List.mem_cons] at h
      rcases h with h | h | h
      · exact absurd h (by simp)
      · exact absurd h (by simp)
      · have ht := TryReplaceEvent_reply_target sed o t b h
        subst ht
        exact ⟨q, rfl, List.mem_of_find?_eq_some hf⟩

theorem GetPrevEvent_no_reply (g : List Char → List Char → Option Event)
    (bot : Sed) (r u : List Char) (t : Event) (b : List Char) :
    Act.reply t b ∉ (GetPrevEvent g bot r u).2 := by
  unfold GetPrevEvent
  rcases mapGet bot.prevEventMap r with _ | rm
  · simp
  · dsimp only
    rcases mapGet rm u with _ | eid
    · simp
    · simp

theorem GetPrevEvent_result (g : List Char → List Char → Option Event)
    (bot : Sed) (r u : List Char) (o : Event)
    (h : (GetPrevEvent g bot r u).1 = some o) :
    ∃ rm eid, mapGet bot.prevEventMap r = some rm ∧ mapGet rm u = some eid ∧
      g r eid = some o := by
  unfold GetPrevEvent at h
  rcases hrm : mapGet bot.prevEventMap r with _ | rm
  · rw [hrm] at h
    simp at h
  · rw [hrm] at h
    dsimp only at h
    rcases heid : mapGet rm u with _ | eid
    · rw [heid] at h
      simp at h
    · rw [heid] at h
      dsimp only at h
      exact ⟨rm, eid, rfl, heid, h⟩

/-- Claim C9: the handler's final state is the pre-call state with the
incoming message registered – recording happens only after the message's own
resolution completes – and no reply the handler emits targets the incoming
message itself: in particular the fallback scan, which reads the pre-record
state, can never pick the command as its own rewrite target.  Hypotheses:
the store returns events under their requested id, the message does not
reply to itself, and the message has not been recorded before. -/
theorem MessageHandler_records_after (lib : RegexpLib)
    (getEvent : List Char → List Char → Option Event) (bot : Sed) (evt : Event)
    (hfetch : ∀ r i e', getEvent r i = some e' → e'.ID = i)
    (hreply : ¬ evt.ReplyTo = evt.ID)
    (hprev : ∀ rm eid, mapGet bot.prevEventMap evt.RoomID = some rm →
        mapGet rm evt.Sender = some eid → ¬ eid = evt.ID)
    (hring : ∀ q, mapGet bot.prevEventQueue evt.RoomID = some q →
        ∀ o ∈ recentScanOrder q, ¬ o = evt) :
    (MessageHandler lib getEvent bot evt).2.2 = RegisterPrevEvent bot evt ∧
      ∀ t b, Act.reply t b ∈ (MessageHandler lib getEvent bot evt).2.1 →
        ¬ t = evt := by
  have htrr : ∀ (sed : SedStatement) (t : Event) (b : List Char),
      Act.reply t b ∈ (TryReplaceRecentEvent bot sed evt).2 → ¬ t = evt := by
    intro sed t b hm heq
    obtain ⟨q, hq, hmem⟩ := TryReplaceRecentEvent_reply_target bot sed evt t b hm
    exact hring q hq t hmem heq
  unfold MessageHandler
  rcases hp : ParseEvent lib evt with ⟨os, oe⟩
  cases os with
  | none =>
    refine ⟨rfl, ?_⟩
    intro t b hmem
    simp at hmem
  | some sed =>
    cases oe with
    | some e =>
      exfalso
      rcases ParseEvent_shape lib evt with h1 | h2
      · rw [hp] at h1
        simp at h1
      · rw [hp] at h2
        simp at h2
    | none =>
      dsimp only
      by_cases hrt : evt.ReplyTo.length > 0
      · rw [if_pos hrt]
        dsimp only
        rcases hfe : getEvent evt.RoomID evt.ReplyTo with _ | origEvt
        · dsimp only
          by_cases htr : (TryReplaceRecentEvent bot sed evt).1 = true
          · rw [if_pos htr]
            refine ⟨rfl, ?_⟩
            intro t b hmem
            simp only [List.mem_append, List.mem_singleton] at hmem
            rcases hmem with (h | h) | h
            · exact absurd h (by simp)
            · exact absurd h (by simp)
            · exact htrr sed t b h
          · rw [if_neg htr]
            refine ⟨rfl, ?_⟩
            intro t b hmem
            simp only [List.mem_append, List.mem_singleton] at hmem
            rcases hmem with (h | h) | h
            · exact absurd h (by simp)
            · exact absurd h (by simp)
            · exact htrr sed t b h
        · dsimp only
          have hot : ¬ origEvt = evt := by
            intro heq
            have hid := hfetch _ _ _ hfe
            rw [heq] at hid
            exact hreply hid.symm
          by_cases htr : (TryReplaceEvent sed origEvt).1 = true
          · rw [if_pos htr]
            refine ⟨rfl, ?_⟩
            intro t b hmem
            simp only [List.mem_append, List.mem_singleton] at hmem
            rcases hmem with (h | h) | h
            · exact absurd h (by simp)
            · exact absurd h (by simp)
            · have ht := TryReplaceEvent_reply_target sed origEvt t b h
              subst ht
              exact hot
          · rw [if_neg htr]
            by_cases htr2 : (TryReplaceRecentEvent bot sed evt).1 = true
            · rw [if_pos htr2]
              refine ⟨rfl, ?_⟩
              intro t b hmem
              simp only [List.mem_append, List.mem_singleton] at hmem
              rcases hmem with ((h | h) | h) | h
              · exact absurd h (by simp)
              · exact absurd h (by simp)
              · have ht := TryReplaceEvent_reply_target sed origEvt t b h
                subst ht
                exact hot
              · exact htrr sed t b h
            · rw [if_neg htr2]
              refine ⟨rfl, ?_⟩
              intro t b hmem
              simp only [List.mem_append, List.mem_singleton] at hmem
              rcases hmem with ((h | h) | h) | h
              · exact absurd h (by simp)
              · exact absurd h (by simp)
              · have ht := TryReplaceEvent_reply_target sed origEvt t b h
                subst ht
                exact hot
              · exact htrr sed t b h
      · rw [if_neg hrt]
        rcases hfe : (GetPrevEvent getEvent bot evt.RoomID evt.Sender).1
          with _ | origEvt
        · dsimp only
          by_cases htr : (TryReplaceRecentEvent bot sed evt).1 = true
          · rw [if_pos htr]
            refine ⟨rfl, ?_⟩
            intro t b hmem
            simp only [List.mem_append, List.mem_singleton] at hmem
            rcases hmem with (h | h) | h
            · exact absurd h (GetPrevEvent_no_reply getEvent bot _ _ t b)
            · exact absurd h (by simp)
            · exact htrr sed t b h
          · rw [if_neg htr]
            refine ⟨rfl, ?_⟩
            intro t b hmem
            simp only [List.mem_append, List.mem_singleton] at hmem
            rcases hmem with (h | h) | h
            · exact absurd h (GetPrevEvent_no_reply getEvent bot _ _ t b)
            · exact absurd h (by simp)
            · exact htrr sed t b h
        · dsimp only
          have hot : ¬ origEvt = evt := by
            intro heq
            obtain ⟨rm, eid, hrm, heid, hg⟩ :=
              GetPrevEvent_result getEvent bot evt.RoomID evt.Sender origEvt hfe
            have hid := hfetch _ _ _ hg
            rw [heq] at hid
            exact hprev rm eid hrm heid hid.symm
          by_cases htr : (TryReplaceEvent sed origEvt).1 = true
          · rw [if_pos htr]
            refine ⟨rfl, ?_⟩
            intro t b hmem
            simp only [List.mem_append, List.mem_singleton] at hmem
            rcases hmem with (h | h) | h
            · exact absurd h (GetPrevEvent_no_reply getEvent bot _ _ t b)
            · exact absurd h (by simp)
            · have ht := TryReplaceEvent_reply_target sed origEvt t b h
              subst ht
              exact hot
          · rw [if_neg htr]
            by_cases htr2 : (TryReplaceRecentEvent bot sed evt).1 = true
            · rw [if_pos htr2]
              refine ⟨rfl, ?_⟩
              intro t b hmem
              simp only [List.mem_append, List.mem_singleton] at hmem
              rcases hmem with ((h | h) | h) | h
              · exact absurd h (GetPrevEvent_no_reply getEvent bot _ _ t b)
              · exact absurd h (by simp)
              · have ht := TryReplaceEvent_reply_target sed origEvt t b h
                subst ht
                exact hot
              · exact htrr sed t b h
            · rw [if_neg htr2]
              refine ⟨rfl, ?_⟩
              intro t b hmem
              simp only [List.mem_append, List.mem_singleton] at hmem
              rcases hmem with ((h | h) | h) | h
              · exact absurd h (GetPrevEvent_no_reply getEvent bot _ _ t b)
              · exact absurd h (by simp)
              · have ht := TryReplaceEvent_reply_target sed origEvt t b h
                subst ht
                exact hot
              · exact htrr sed t b h

/-- Witness for C9: a fresh command message in an empty state is recorded
after handling and never replied to as its own target. -/
theorem MessageHandler_records_after_w :
    (MessageHandler demoLibA emptyStore emptyBot demoEvtShortRaw).2.2 =
        RegisterPrevEvent emptyBot demoEvtShortRaw ∧
      ∀ t b,
        Act.reply t b ∈ (MessageHandler demoLibA emptyStore emptyBot demoEvtShortRaw).2.1 →
          ¬ t = demoEvtShortRaw :=
  MessageHandler_records_after demoLibA emptyStore emptyBot demoEvtShortRaw
    (fun r i e' h => absurd h (by simp [emptyStore]))
    (by decide)
    (fun rm eid h _ => absurd h (by simp [emptyBot, mapGet]))
    (fun q h => absurd h (by simp [emptyBot, mapGet]))
